import Mathlib

/-!
Verification of the `plain_to_v2_converter.py` conversion engine of Lunii.QT.

The engine converts a `.plain.pk` zip archive into a `.v2.pk` archive:
it reads a 16-byte content identifier from the entry `uuid.bin`, re-roots
every kept entry under the identifier's 32-character uppercase hex form,
and encrypts the first 512 bytes of index and resource entries with the
XXTEA cipher using a data-size-dependent round count.

Modelling conventions:
* byte buffers are `List Nat` (each element a byte value);
* entry paths are `List Char` (`S s` turns a string literal into one);
* the zip archives are association lists `List (List Char × List Nat)`;
* Python exceptions are modelled by `Option`/error fields;
* the source's float expression `int(1 + 52 / (len(buffer) / 4))` is
  modelled in exact rational arithmetic (for every representable length
  the double-precision computation agrees with the exact value, since
  `52 / k` is never within one ulp of an integer it does not equal).
-/

/-- Shorthand turning a string literal into the `List Char` path type. -/
def S (s : String) : List Char := s.data

/-- Fuel-driven worker for `replaceAll`; the fuel is an upper bound on the
length of the remaining text, so with fuel `s.length` it never runs out. -/
def replaceAllAux (pat rep : List Char) : Nat → List Char → List Char
  | 0, s => s
  | fuel + 1, s =>
    if pat ≠ [] ∧ pat.isPrefixOf s then
      rep ++ replaceAllAux pat rep fuel (s.drop pat.length)
    else
      match s with
      | [] => []
      | c :: rest => c :: replaceAllAux pat rep fuel rest

/-- Model of Python `str.replace(pat, rep)`: replace every non-overlapping
occurrence of `pat`, scanning left to right. -/
def replaceAll (pat rep s : List Char) : List Char :=
  replaceAllAux pat rep s.length s

/-- Model of the Python substring test `pat in s`. -/
def containsSub (pat s : List Char) : Bool :=
  s.tails.any (fun t => pat.isPrefixOf t)

/-- Uppercase hexadecimal digit for a value below 16. -/
def hexDigitUpper (n : Nat) : Char :=
  (S "0123456789ABCDEF").getD n '0'

/-- Model of `UUID(bytes=b).hex.upper()`: two uppercase hex digits per byte,
bytes in order (big-endian rendering of the 16-byte identifier). -/
def uuidHexUpper (bytes : List Nat) : List Char :=
  (bytes.map (fun b => [hexDigitUpper (b / 16), hexDigitUpper (b % 16)])).flatten

/-- `vectkey_to_bytes` from the source: four 32-bit words serialised in
little-endian order and concatenated. -/
def vectkey_to_bytes (key_vect : List Nat) : List Nat :=
  (key_vect.map (fun k => [k % 256, k / 256 % 256, k / 65536 % 256, k / 16777216 % 256])).flatten

/-- `raw_key_generic` from the source. -/
def raw_key_generic : List Nat := [0x91BD7A0A, 0xA75440A9, 0xBBD49D6C, 0xE0DCC0E3]

/-- `lunii_generic_key` from the source. -/
def lunii_generic_key : List Nat := vectkey_to_bytes raw_key_generic

/-- `lunii_tea_rounds` from the source: `int(1 + 52 / (len(buffer) / 4))`.
In exact arithmetic `52 / (L / 4) = 52 * 4 / L` and, the value being
positive, `int` truncation is the floor, so the expression is `1 + ⌊52 * 4 / L⌋`,
which is natural-number division.  `lunii_tea_rounds_eq_floor` below proves
this rendering equal to the floor of the exact rational source expression
for every nonzero length. -/
def lunii_tea_rounds (buffer : List Nat) : Nat :=
  1 + 52 * 4 / buffer.length

/-- Modelled from the spec: the XXTEA cipher primitive (`xxtea.encrypt` with
`padding=False`) is an external library, not part of this repository.  §4.1
specifies its adapter contract: it accepts a byte buffer whose length must be
a positive multiple of 4, a 16-byte key and a round count; it returns a
transformed buffer of the same length with no padding added, and fails if
the buffer length is zero or not a multiple of 4.  The word-pair mixing
itself is an opaque external dependency, so only a representative keyed,
length-preserving transform is modelled; every claim below depends only on
the length and failure contract. -/
def xxtea_encrypt (data key : List Nat) (rounds : Nat) : Option (List Nat) :=
  if data.length % 4 = 0 ∧ data.length ≠ 0 then
    some (data.map (fun b => (b + key.sum + rounds) % 256))
  else
    none

/-- `encrypt_first_512_bytes` from the source: encrypt the first
`min 512 (len data)` bytes with XXTEA (round count computed from the head),
leave the remainder untouched; `none` models the `ValueError` raised by the
cipher on a head that is not word-aligned. -/
def encrypt_first_512_bytes (data key : List Nat) : Option (List Nat) :=
  if data.length = 0 then
    some data
  else
    let encrypt_len := min 512 data.length
    let to_encrypt := data.take encrypt_len
    let remainder := data.drop encrypt_len
    match xxtea_encrypt to_encrypt key (lunii_tea_rounds to_encrypt) with
    | some encrypted => some (encrypted ++ remainder)
    | none => none

/-- The errors the conversion can raise.  The first two are the spec's
`InvalidFormat` kind (source-name suffix check at line 72, missing
`uuid.bin` at line 82); `uuid_bytes_length` is the `ValueError` raised by
`UUID(bytes=...)` at line 86 when `uuid.bin` does not hold exactly 16
bytes; `cipherPrecondition` is the cipher's error on a misaligned head. -/
inductive ConvError where
  | invalidFormat_suffix : ConvError
  | invalidFormat_missingUuid : ConvError
  | uuid_bytes_length : Nat → ConvError
  | cipherPrecondition : ConvError
deriving DecidableEq

/-- The disposition of one source entry in the writer loop (lines 103-148):
dropped metadata, unknown entry reported and skipped, an entry written to
the destination archive, or an error aborting the conversion. -/
inductive EntryResult where
  | skip : EntryResult
  | unknown : EntryResult
  | write : List Char → List Nat → EntryResult
  | err : ConvError → EntryResult
deriving DecidableEq

/-- Loop body of `convert_plain_to_v2` (lines 104-144): classify one entry
by its path and compute its destination path and bytes. -/
def process_entry (uuid_hex file_name : List Char) (data : List Nat) : EntryResult :=
  if file_name ∈ [S "uuid.bin", S "_metadata.json", S "_thumbnail.png"] then
    .skip
  else if file_name = S "ni" ∨ file_name = S "nm" then
    .write (uuid_hex ++ S "/" ++ file_name) data
  else if (S ".plain").isSuffixOf file_name then
    let base_name := replaceAll (S ".plain") [] file_name
    match encrypt_first_512_bytes data lunii_generic_key with
    | some out => .write (uuid_hex ++ S "/" ++ base_name) out
    | none => .err .cipherPrecondition
  else if (S "rf/").isPrefixOf file_name ∨ (S "rf\\").isPrefixOf file_name ∨
      containsSub (S "/rf/") file_name ∨ containsSub (S "\\rf\\") file_name then
    let slashed := file_name.map (fun c => if c = '\\' then '/' else c)
    let base_name := if (S ".bmp").isSuffixOf slashed then slashed.take (slashed.length - 4) else slashed
    match encrypt_first_512_bytes data lunii_generic_key with
    | some out => .write (uuid_hex ++ S "/" ++ base_name) out
    | none => .err .cipherPrecondition
  else if (S "sf/").isPrefixOf file_name ∨ (S "sf\\").isPrefixOf file_name ∨
      containsSub (S "/sf/") file_name ∨ containsSub (S "\\sf\\") file_name then
    let slashed := file_name.map (fun c => if c = '\\' then '/' else c)
    let base_name := if (S ".mp3").isSuffixOf slashed then slashed.take (slashed.length - 4) else slashed
    match encrypt_first_512_bytes data lunii_generic_key with
    | some out => .write (uuid_hex ++ S "/" ++ base_name) out
    | none => .err .cipherPrecondition
  else
    .unknown

/-- Model of `zip_in.read(name)`: a zip reader resolves a name to the last
entry bearing it (the name-to-entry dictionary is built in order, later
entries overwriting earlier ones). -/
def zip_read (entries : List (List Char × List Nat)) (name : List Char) : Option (List Nat) :=
  entries.reverse.lookup name

/-- The writer loop over the enumerated entry names: produces the entries
written to the destination archive, in order, and the error of the first
failing entry if any (the failure aborts the loop, keeping earlier writes). -/
def process_all (uuid_hex : List Char) (entries : List (List Char × List Nat)) :
    List (List Char) → List (List Char × List Nat) × Option ConvError
  | [] => ([], none)
  | name :: rest =>
    match process_entry uuid_hex name ((zip_read entries name).getD []) with
    | .skip => process_all uuid_hex entries rest
    | .unknown => process_all uuid_hex entries rest
    | .write p b => ((p, b) :: (process_all uuid_hex entries rest).1, (process_all uuid_hex entries rest).2)
    | .err e => ([], some e)

/-- Observable outcome of one conversion run: whether a destination archive
was created (and under which name), the destination entries actually
written before any failure, the failure if any, and the returned
destination path (present only on success). -/
structure ConvResult where
  created : Option (List Char)
  written : List (List Char × List Nat)
  error : Option ConvError
  returned : Option (List Char)
deriving DecidableEq

/-- `convert_plain_to_v2` from the source, as a pure function of the input
archive name, the source archive's entry list and the optional output path.
The input path's parent directory and the on-disk existence check are
filesystem context outside the entry-level model; an auto-generated output
name is `{uuid-hex}.v2.pk` as at line 93. -/
def convert_plain_to_v2 (input_name : List Char) (entries : List (List Char × List Nat))
    (output_path : Option (List Char)) : ConvResult :=
  if ¬ ((S ".plain.pk").isSuffixOf input_name) then
    { created := none, written := [], error := some .invalidFormat_suffix, returned := none }
  else if ¬ (S "uuid.bin" ∈ entries.map Prod.fst) then
    { created := none, written := [], error := some .invalidFormat_missingUuid, returned := none }
  else
    let uuid_bytes := (zip_read entries (S "uuid.bin")).getD []
    if uuid_bytes.length ≠ 16 then
      { created := none, written := [], error := some (.uuid_bytes_length uuid_bytes.length),
        returned := none }
    else
      let uuid_hex := uuidHexUpper uuid_bytes
      let out_name := output_path.getD (uuid_hex ++ S ".v2.pk")
      let res := process_all uuid_hex entries (entries.map Prod.fst)
      { created := some out_name, written := res.1, error := res.2,
        returned := if res.2 = none then some out_name else none }

/-- The destination entry (path and bytes) one source entry name produces,
or `none` when the name is dropped, unknown or fails. -/
def write_of (uuid_hex : List Char) (entries : List (List Char × List Nat))
    (name : List Char) : Option (List Char × List Nat) :=
  match process_entry uuid_hex name ((zip_read entries name).getD []) with
  | .write p b => some (p, b)
  | _ => none

/-- A three-entry source archive in which the same resource appears once
with forward and once with backward slashes, so that two distinct source
entries map to one destination path. -/
def c7_entries : List (List Char × List Nat) :=
  [(S "uuid.bin", List.replicate 16 0),
   (S "rf/000/a.bmp", [1, 2, 3, 4, 5, 6, 7, 8]),
   (S "rf\\000\\a.bmp", [5, 6, 7, 8, 9, 10, 11, 12])]

/-- The natural-number rendering of `int(1 + 52 / (len(buffer) / 4))` agrees
with the floor of the exact rational value of the source expression. -/
theorem lunii_tea_rounds_eq_floor (buffer : List Nat) (h : buffer.length ≠ 0) :
    (lunii_tea_rounds buffer : ℤ) = ⌊(1 : ℚ) + 52 / ((buffer.length : ℚ) / 4)⌋ := by
  have hL : ((buffer.length : ℚ)) ≠ 0 := by exact_mod_cast h
  have h1 : (52 : ℚ) / ((buffer.length : ℚ) / 4) = ((52 * 4 : ℕ) : ℚ) / (buffer.length : ℚ) := by
    rw [div_div_eq_mul_div]
    norm_num
  rw [h1, add_comm, Int.floor_add_one]
  have h2 : (((52 * 4 : ℕ) : ℚ)) = (((52 * 4 : ℕ) : ℤ) : ℚ) := by push_cast; ring
  rw [h2, Rat.floor_intCast_div_natCast]
  rw [← Int.natCast_div]
  simp [lunii_tea_rounds, add_comm]

/-- The head actually encrypted has length `min 512 (len data)`. -/
theorem take_head_length (data : List Nat) :
    (data.take (min 512 data.length)).length = min 512 data.length := by
  rw [List.length_take]; omega

/-- On a non-empty, word-aligned head the modelled cipher succeeds and
returns the mapped head. -/
theorem xxtea_encrypt_aligned (head key : List Nat) (rounds : Nat)
    (h4 : head.length % 4 = 0) (h0 : head.length ≠ 0) :
    xxtea_encrypt head key rounds =
      some (head.map (fun b => (b + key.sum + rounds) % 256)) := by
  rw [xxtea_encrypt, if_pos ⟨h4, h0⟩]

/-- Claim C2 (counterexample): the length-preservation claim fails as
stated for all buffers: a 5-byte buffer has a head of 5 bytes, not
word-aligned, so the transform raises instead of returning a 5-byte
output. -/
theorem encrypt_length_c2_counterexample :
    (encrypt_first_512_bytes [0, 0, 0, 0, 0] lunii_generic_key).map List.length ≠ some 5 := by
  decide

/-- Claim C2 (amended): for every byte buffer whose head `min 512 (len B)`
is a multiple of 4 (in particular the empty buffer), the partial encryption
transform returns an output and its length equals the input length. -/
theorem encrypt_length_c2 (data key : List Nat) (h : min 512 data.length % 4 = 0) :
    (encrypt_first_512_bytes data key).map List.length = some data.length := by
  rcases Nat.eq_zero_or_pos data.length with h0 | hpos
  · simp [encrypt_first_512_bytes, h0]
  · have hne : data.length ≠ 0 := by omega
    have hlen := take_head_length data
    simp only [encrypt_first_512_bytes, hne, if_false,
      xxtea_encrypt_aligned _ key _ (by rw [hlen]; exact h) (by rw [hlen]; omega)]
    simp only [Option.map_some', Option.some.injEq, List.length_append, List.length_map,
      List.length_take, List.length_drop]
    omega

/-- Claim C2 (witness). -/
theorem encrypt_length_c2_witness :
    min 512 ([5, 6, 7, 8, 9, 10, 11, 12] : List Nat).length % 4 = 0 ∧
      (encrypt_first_512_bytes [5, 6, 7, 8, 9, 10, 11, 12] lunii_generic_key).map List.length =
        some ([5, 6, 7, 8, 9, 10, 11, 12] : List Nat).length :=
  ⟨by decide, encrypt_length_c2 [5, 6, 7, 8, 9, 10, 11, 12] lunii_generic_key (by decide)⟩

/-- Dropping the length of the left summand of an append yields the right
summand. -/
theorem drop_len_append {α : Type} (l1 l2 : List α) (n : Nat) (h : l1.length = n) :
    (l1 ++ l2).drop n = l2 := by
  subst h
  exact List.drop_left l1 l2

/-- Claim C3: for a buffer longer than 512 bytes the transform succeeds and
every byte from offset 512 onwards is unchanged (the suffixes from offset
512 coincide). -/
theorem encrypt_tail_c3 (data key : List Nat) (h : 512 < data.length) :
    (encrypt_first_512_bytes data key).map (List.drop 512) = some (data.drop 512) := by
  have hne : data.length ≠ 0 := by omega
  have hmin : min 512 data.length = 512 := by omega
  have hlen := take_head_length data
  simp only [encrypt_first_512_bytes, hne, if_false,
    xxtea_encrypt_aligned _ key _ (by rw [hlen, hmin]) (by rw [hlen]; omega)]
  simp only [Option.map_some', Option.some.injEq, hmin]
  exact drop_len_append _ _ _ (by rw [List.length_map, List.length_take]; omega)

set_option maxRecDepth 100000 in
/-- Claim C3 (witness). -/
theorem encrypt_tail_c3_witness :
    512 < (List.replicate 516 9 : List Nat).length ∧
      (encrypt_first_512_bytes (List.replicate 516 9) lunii_generic_key).map (List.drop 512) =
        some ((List.replicate 516 9 : List Nat).drop 512) :=
  ⟨by decide, encrypt_tail_c3 (List.replicate 516 9) lunii_generic_key (by decide)⟩

/-- Claim C6: a non-empty buffer whose head `min 512 (len B)` is not a
multiple of 4 makes the partial encryption transform fail (the cipher's
typed error) instead of returning a truncated or resized output. -/
theorem encrypt_misaligned_c6 (data key : List Nat) (hne : data ≠ [])
    (h : min 512 data.length % 4 ≠ 0) :
    encrypt_first_512_bytes data key = none := by
  have h0 : data.length ≠ 0 := by
    simpa using List.length_pos.mpr hne |>.ne'
  have hlen := take_head_length data
  have hxx : xxtea_encrypt (data.take (min 512 data.length)) key
      (lunii_tea_rounds (data.take (min 512 data.length))) = none := by
    rw [xxtea_encrypt, if_neg]
    intro hc
    exact h (hlen ▸ hc.1)
  simp only [encrypt_first_512_bytes, h0, if_false, hxx]

/-- Claim C6 (witness). -/
theorem encrypt_misaligned_c6_witness :
    ([7, 7, 7] : List Nat) ≠ [] ∧ min 512 ([7, 7, 7] : List Nat).length % 4 ≠ 0 ∧
      encrypt_first_512_bytes [7, 7, 7] lunii_generic_key = none :=
  ⟨by decide, by decide, encrypt_misaligned_c6 [7, 7, 7] lunii_generic_key (by decide) (by decide)⟩

/-- Claim C4: for a non-empty buffer of length a multiple of 4, the round
count the partial encryption transform passes to the cipher is computed
from the head length `min 512 (len B)` and equals the exact integer
formula `1 + 52 / (head_length / 4)`; the last conjunct checks the exact
rational floor of the source's expression on the head as well. -/
theorem rounds_c4 (buffer key : List Nat) (h4 : buffer.length % 4 = 0)
    (hne : buffer ≠ []) :
    lunii_tea_rounds (buffer.take (min 512 buffer.length)) =
        1 + 52 / (min 512 buffer.length / 4) ∧
      encrypt_first_512_bytes buffer key =
        (xxtea_encrypt (buffer.take (min 512 buffer.length)) key
          (1 + 52 / (min 512 buffer.length / 4))).map
          (fun l => l ++ buffer.drop (min 512 buffer.length)) ∧
      ((1 : ℤ) + 52 / (min 512 buffer.length / 4) =
        ⌊(1 : ℚ) + 52 / (((buffer.take (min 512 buffer.length)).length : ℚ) / 4)⌋) := by
  have hlen0 : buffer.length ≠ 0 := by
    simpa using List.length_pos.mpr hne |>.ne'
  have hmin4 : min 512 buffer.length % 4 = 0 := by omega
  have hminpos : min 512 buffer.length ≠ 0 := by omega
  have hlen := take_head_length buffer
  have hdiv : 52 * 4 / min 512 buffer.length = 52 / (min 512 buffer.length / 4) := by
    obtain ⟨k, hk⟩ := Nat.dvd_of_mod_eq_zero hmin4
    rw [hk, Nat.mul_div_cancel_left k (by norm_num : (0 : Nat) < 4),
      (by norm_num : (52 * 4 : Nat) = 4 * 52), Nat.mul_div_mul_left 52 k (by norm_num)]
  have hrounds : lunii_tea_rounds (buffer.take (min 512 buffer.length)) =
      1 + 52 / (min 512 buffer.length / 4) := by
    rw [lunii_tea_rounds, hlen, hdiv]
  refine ⟨hrounds, ?_, ?_⟩
  · simp only [encrypt_first_512_bytes, hlen0, if_false, hrounds]
    cases hx : xxtea_encrypt (buffer.take (min 512 buffer.length)) key
        (1 + 52 / (min 512 buffer.length / 4)) <;> simp [hx]
  · have := lunii_tea_rounds_eq_floor (buffer.take (min 512 buffer.length))
      (by rw [hlen]; exact hminpos)
    rw [hrounds] at this
    rw [← this]
    push_cast
    ring

/-- Claim C4 (witness). -/
theorem rounds_c4_witness :
    ([1, 2, 3, 4, 5, 6, 7, 8] : List Nat).length % 4 = 0 ∧
      (lunii_tea_rounds (([1, 2, 3, 4, 5, 6, 7, 8] : List Nat).take
            (min 512 ([1, 2, 3, 4, 5, 6, 7, 8] : List Nat).length)) =
          1 + 52 / (min 512 ([1, 2, 3, 4, 5, 6, 7, 8] : List Nat).length / 4) ∧
        encrypt_first_512_bytes [1, 2, 3, 4, 5, 6, 7, 8] lunii_generic_key =
          (xxtea_encrypt (([1, 2, 3, 4, 5, 6, 7, 8] : List Nat).take
              (min 512 ([1, 2, 3, 4, 5, 6, 7, 8] : List Nat).length)) lunii_generic_key
            (1 + 52 / (min 512 ([1, 2, 3, 4, 5, 6, 7, 8] : List Nat).length / 4))).map
            (fun l => l ++ ([1, 2, 3, 4, 5, 6, 7, 8] : List Nat).drop
              (min 512 ([1, 2, 3, 4, 5, 6, 7, 8] : List Nat).length)) ∧
        ((1 : ℤ) + 52 / (min 512 ([1, 2, 3, 4, 5, 6, 7, 8] : List Nat).length / 4) =
          ⌊(1 : ℚ) + 52 / (((([1, 2, 3, 4, 5, 6, 7, 8] : List Nat).take
              (min 512 ([1, 2, 3, 4, 5, 6, 7, 8] : List Nat).length)).length : ℚ) / 4)⌋)) :=
  ⟨by decide, rounds_c4 [1, 2, 3, 4, 5, 6, 7, 8] lunii_generic_key (by decide) (by decide)⟩

/-- Claim C5 (counterexample): the code removes every occurrence of
`.plain` from the name, not only the trailing suffix, so an entry named
`x.plain.plain` is written to `{hex}/x` where the claim asserts
`{hex}/x.plain`. -/
theorem plain_entry_c5_counterexample :
    process_entry (S "AB") (S "x.plain.plain") [1, 2, 3, 4, 5, 6, 7, 8] =
      .write (S "AB/x")
        ((encrypt_first_512_bytes [1, 2, 3, 4, 5, 6, 7, 8] lunii_generic_key).getD []) ∧
      S "AB/x" ≠ S "AB/x.plain" := by
  decide

/-- Claim C5 (amended): an entry whose path ends with `.plain` is written
to `{identifier-hex}/{name with every occurrence of `.plain` removed}`
with bytes equal to the partial encryption transform of the original
bytes; a failing transform aborts the conversion with the cipher error. -/
theorem plain_entry_c5 (uuid_hex file_name : List Char) (data : List Nat)
    (h : (S ".plain").isSuffixOf file_name = true) :
    process_entry uuid_hex file_name data =
      match encrypt_first_512_bytes data lunii_generic_key with
      | some out => .write (uuid_hex ++ S "/" ++ replaceAll (S ".plain") [] file_name) out
      | none => .err .cipherPrecondition := by
  have hm : file_name ∉ [S "uuid.bin", S "_metadata.json", S "_thumbnail.png"] := by
    intro hmem
    simp only [List.mem_cons, List.not_mem_nil, or_false] at hmem
    rcases hmem with h1 | h1 | h1 <;> (subst h1; exact absurd h (by decide))
  have hnm : ¬(file_name = S "ni" ∨ file_name = S "nm") := by
    rintro (h1 | h1) <;> (subst h1; exact absurd h (by decide))
  rw [process_entry, if_neg hm, if_neg hnm, if_pos h]

/-- Claim C5 (witness). -/
theorem plain_entry_c5_witness :
    (S ".plain").isSuffixOf (S "si.plain") = true ∧
      process_entry (S "CD") (S "si.plain") [1, 2, 3, 4, 5, 6, 7, 8] =
        match encrypt_first_512_bytes [1, 2, 3, 4, 5, 6, 7, 8] lunii_generic_key with
        | some out => .write (S "CD" ++ S "/" ++ replaceAll (S ".plain") [] (S "si.plain")) out
        | none => .err .cipherPrecondition :=
  ⟨by decide, plain_entry_c5 (S "CD") (S "si.plain") [1, 2, 3, 4, 5, 6, 7, 8] (by decide)⟩

/-- A list is a Boolean prefix of itself followed by anything. -/
theorem isPrefixOf_append_self (l1 l2 : List Char) : l1.isPrefixOf (l1 ++ l2) = true := by
  induction l1 with
  | nil => simp
  | cons c t ih => simp [List.isPrefixOf, ih]

/-- The hex rendering has two characters per byte. -/
theorem uuidHexUpper_length (bytes : List Nat) : (uuidHexUpper bytes).length = 2 * bytes.length := by
  induction bytes with
  | nil => rfl
  | cons b t ih =>
    simp [uuidHexUpper] at *
    omega

/-- Every entry the loop body writes has a path of the form
`{uuid-hex}/{...}`. -/
theorem process_entry_write_shape (uuid_hex file_name : List Char) (data : List Nat)
    (p : List Char) (b : List Nat)
    (hw : process_entry uuid_hex file_name data = .write p b) :
    ∃ t, p = uuid_hex ++ S "/" ++ t := by
  simp only [process_entry] at hw
  repeat' split at hw
  all_goals cases hw
  all_goals exact ⟨_, rfl⟩

/-- Every entry the writer loop emits has a path of the form
`{uuid-hex}/{...}`. -/
theorem process_all_write_shape (uuid_hex : List Char) (entries : List (List Char × List Nat))
    (names : List (List Char)) (p : List Char) (b : List Nat)
    (hmem : (p, b) ∈ (process_all uuid_hex entries names).1) :
    ∃ t, p = uuid_hex ++ S "/" ++ t := by
  induction names with
  | nil => simp [process_all] at hmem
  | cons name rest ih =>
    rw [process_all] at hmem
    cases hpe : process_entry uuid_hex name ((zip_read entries name).getD []) with
    | skip => simp only [hpe] at hmem; exact ih hmem
    | unknown => simp only [hpe] at hmem; exact ih hmem
    | write q c =>
      simp only [hpe, List.mem_cons] at hmem
      rcases hmem with h | h
      · rcases h with ⟨rfl, rfl⟩
        exact process_entry_write_shape _ _ _ _ _ hpe
      · exact ih h
    | err e => simp only [hpe] at hmem; simp at hmem

/-- A successful lookup means the key occurs among the keys. -/
theorem lookup_mem_keys (name : List Char) (v : List Nat) :
    ∀ l : List (List Char × List Nat), l.lookup name = some v → name ∈ l.map Prod.fst := by
  intro l
  induction l with
  | nil => intro h; simp [List.lookup] at h
  | cons kv t ih =>
    obtain ⟨k, b⟩ := kv
    intro h
    rw [List.lookup] at h
    cases hbe : name == k with
    | true =>
      simp only [List.map_cons, List.mem_cons]
      exact Or.inl (eq_of_beq hbe)
    | false =>
      rw [hbe] at h
      simp only [List.map_cons, List.mem_cons]
      exact Or.inr (ih h)

/-- A readable entry name occurs in the archive's name list. -/
theorem zip_read_some_mem (entries : List (List Char × List Nat)) (name : List Char)
    (v : List Nat) (h : zip_read entries name = some v) : name ∈ entries.map Prod.fst := by
  have hmem := lookup_mem_keys name v entries.reverse h
  rw [List.map_reverse, List.mem_reverse] at hmem
  exact hmem

/-- On a well-formed source archive (`.plain.pk` name, 16-byte identifier)
the conversion reaches the writer loop; its observable outcome is the
loop's writes and error. -/
theorem convert_main_eq (input_name : List Char) (entries : List (List Char × List Nat))
    (output_path : Option (List Char)) (u : List Nat)
    (hsuf : (S ".plain.pk").isSuffixOf input_name = true)
    (hu : zip_read entries (S "uuid.bin") = some u) (h16 : u.length = 16) :
    convert_plain_to_v2 input_name entries output_path =
      { created := some (output_path.getD (uuidHexUpper u ++ S ".v2.pk")),
        written := (process_all (uuidHexUpper u) entries (entries.map Prod.fst)).1,
        error := (process_all (uuidHexUpper u) entries (entries.map Prod.fst)).2,
        returned :=
          if (process_all (uuidHexUpper u) entries (entries.map Prod.fst)).2 = none then
            some (output_path.getD (uuidHexUpper u ++ S ".v2.pk"))
          else none } := by
  have hmem := zip_read_some_mem _ _ _ hu
  rw [convert_plain_to_v2, if_neg (not_not_intro hsuf), if_neg (not_not_intro hmem)]
  simp only [hu, Option.getD_some]
  rw [if_neg (fun hn => hn h16)]

/-- Claim C1: with a 16-byte identifier in `uuid.bin`, its hex rendering
has 32 characters and every destination entry path written by the
conversion starts with that rendering followed by a slash. -/
theorem hex_root_c1 (input_name : List Char) (entries : List (List Char × List Nat))
    (output_path : Option (List Char)) (u : List Nat) (p : List Char) (b : List Nat)
    (hu : zip_read entries (S "uuid.bin") = some u) (h16 : u.length = 16)
    (hmem : (p, b) ∈ (convert_plain_to_v2 input_name entries output_path).written) :
    (uuidHexUpper u).length = 32 ∧ (uuidHexUpper u ++ S "/").isPrefixOf p = true := by
  refine ⟨by rw [uuidHexUpper_length, h16], ?_⟩
  by_cases hsuf : (S ".plain.pk").isSuffixOf input_name = true
  · rw [convert_main_eq input_name entries output_path u hsuf hu h16] at hmem
    obtain ⟨t, rfl⟩ := process_all_write_shape _ _ _ _ _ hmem
    exact isPrefixOf_append_self _ _
  · rw [convert_plain_to_v2, if_pos hsuf] at hmem
    simp at hmem

/-- Claim C1 (witness). -/
theorem hex_root_c1_witness :
    zip_read [(S "uuid.bin", [0, 1, 2, 3, 4, 5, 6, 7, 8, 9, 10, 11, 12, 13, 14, 15]),
        (S "ni", [9])] (S "uuid.bin") =
      some [0, 1, 2, 3, 4, 5, 6, 7, 8, 9, 10, 11, 12, 13, 14, 15] ∧
    ([0, 1, 2, 3, 4, 5, 6, 7, 8, 9, 10, 11, 12, 13, 14, 15] : List Nat).length = 16 ∧
    (S "000102030405060708090A0B0C0D0E0F/ni", [9]) ∈
      (convert_plain_to_v2 (S "w.plain.pk")
        [(S "uuid.bin", [0, 1, 2, 3, 4, 5, 6, 7, 8, 9, 10, 11, 12, 13, 14, 15]),
         (S "ni", [9])] none).written ∧
    ((uuidHexUpper [0, 1, 2, 3, 4, 5, 6, 7, 8, 9, 10, 11, 12, 13, 14, 15]).length = 32 ∧
      (uuidHexUpper [0, 1, 2, 3, 4, 5, 6, 7, 8, 9, 10, 11, 12, 13, 14, 15] ++ S "/").isPrefixOf
        (S "000102030405060708090A0B0C0D0E0F/ni") = true) :=
  ⟨by decide, by decide, by decide,
    hex_root_c1 (S "w.plain.pk")
      [(S "uuid.bin", [0, 1, 2, 3, 4, 5, 6, 7, 8, 9, 10, 11, 12, 13, 14, 15]), (S "ni", [9])]
      none [0, 1, 2, 3, 4, 5, 6, 7, 8, 9, 10, 11, 12, 13, 14, 15]
      (S "000102030405060708090A0B0C0D0E0F/ni") [9] (by decide) (by decide) (by decide)⟩

/-- Claim C8: a source archive with a `.plain.pk` name but no `uuid.bin`
entry fails with the missing-identifier `InvalidFormat` error, writes
nothing and never creates a destination archive. -/
theorem missing_uuid_c8 (input_name : List Char) (entries : List (List Char × List Nat))
    (output_path : Option (List Char))
    (hsuf : (S ".plain.pk").isSuffixOf input_name = true)
    (hmiss : S "uuid.bin" ∉ entries.map Prod.fst) :
    convert_plain_to_v2 input_name entries output_path =
      { created := none, written := [], error := some .invalidFormat_missingUuid,
        returned := none } := by
  rw [convert_plain_to_v2, if_neg (not_not_intro hsuf), if_pos hmiss]

/-- Claim C8 (witness). -/
theorem missing_uuid_c8_witness :
    (S ".plain.pk").isSuffixOf (S "a.plain.pk") = true ∧
    S "uuid.bin" ∉ ([(S "ni", [1])] : List (List Char × List Nat)).map Prod.fst ∧
    convert_plain_to_v2 (S "a.plain.pk") [(S "ni", [1])] none =
      { created := none, written := [], error := some .invalidFormat_missingUuid,
        returned := none } :=
  ⟨by decide, by decide,
    missing_uuid_c8 (S "a.plain.pk") [(S "ni", [1])] none (by decide) (by decide)⟩

/-- Claim C9: a `uuid.bin` entry holding other than 16 bytes makes the
conversion fail with the identifier-length error (the `ValueError` of
`UUID(bytes=...)`, a kind absent from the spec's taxonomy) before the
destination archive is created. -/
theorem uuid_length_c9 (input_name : List Char) (entries : List (List Char × List Nat))
    (output_path : Option (List Char)) (u : List Nat)
    (hsuf : (S ".plain.pk").isSuffixOf input_name = true)
    (hu : zip_read entries (S "uuid.bin") = some u) (hlen : u.length ≠ 16) :
    convert_plain_to_v2 input_name entries output_path =
      { created := none, written := [], error := some (.uuid_bytes_length u.length),
        returned := none } := by
  have hmem := zip_read_some_mem _ _ _ hu
  rw [convert_plain_to_v2, if_neg (not_not_intro hsuf), if_neg (not_not_intro hmem)]
  simp only [hu, Option.getD_some]
  rw [if_pos hlen]

/-- Claim C9 (witness). -/
theorem uuid_length_c9_witness :
    (S ".plain.pk").isSuffixOf (S "b.plain.pk") = true ∧
    zip_read [(S "uuid.bin", [1, 2, 3])] (S "uuid.bin") = some [1, 2, 3] ∧
    ([1, 2, 3] : List Nat).length ≠ 16 ∧
    convert_plain_to_v2 (S "b.plain.pk") [(S "uuid.bin", [1, 2, 3])] none =
      { created := none, written := [],
        error := some (.uuid_bytes_length ([1, 2, 3] : List Nat).length), returned := none } :=
  ⟨by decide, by decide, by decide,
    uuid_length_c9 (S "b.plain.pk") [(S "uuid.bin", [1, 2, 3])] none [1, 2, 3]
      (by decide) (by decide) (by decide)⟩

/-- Claim C10: the conversion engine is a pure function of the input name,
the source entry list and the output path option, so two runs on the same
source archive produce identical outcomes (same written entries, same
returned destination path). -/
theorem deterministic_c10 (input_name : List Char) (entries : List (List Char × List Nat))
    (output_path : Option (List Char)) (r1 r2 : ConvResult)
    (h1 : convert_plain_to_v2 input_name entries output_path = r1)
    (h2 : convert_plain_to_v2 input_name entries output_path = r2) : r1 = r2 :=
  h1.symm.trans h2

/-- Claim C10 (witness). -/
theorem deterministic_c10_witness :
    convert_plain_to_v2 (S "c.plain.pk") [] none = convert_plain_to_v2 (S "c.plain.pk") [] none :=
  deterministic_c10 (S "c.plain.pk") [] none _ _ rfl rfl

/-- When no entry fails, the writer loop emits exactly the destination
entries of the processed names, in order. -/
theorem process_all_ok_written (uuid_hex : List Char) (entries : List (List Char × List Nat)) :
    ∀ names : List (List Char), (process_all uuid_hex entries names).2 = none →
      (process_all uuid_hex entries names).1 = names.filterMap (write_of uuid_hex entries) := by
  intro names
  induction names with
  | nil => intro _; rfl
  | cons name rest ih =>
    intro h
    cases hpe : process_entry uuid_hex name ((zip_read entries name).getD []) with
    | skip =>
      rw [process_all] at h ⊢
      simp only [hpe] at h ⊢
      rw [List.filterMap_cons_none (by simp [write_of, hpe])]
      exact ih h
    | unknown =>
      rw [process_all] at h ⊢
      simp only [hpe] at h ⊢
      rw [List.filterMap_cons_none (by simp [write_of, hpe])]
      exact ih h
    | write q c =>
      rw [process_all] at h ⊢
      simp only [hpe] at h ⊢
      rw [List.filterMap_cons_some (by simp [write_of, hpe] : write_of uuid_hex entries name = some (q, c))]
      rw [ih h]
    | err e =>
      rw [process_all] at h
      simp only [hpe] at h
      exact absurd h (by simp)

/-- A key sent to a pair with first component `p` puts `p` among the first
components of the filtered image at least once. -/
theorem filterMap_count_one (f : List Char → Option (List Char × List Nat))
    (l : List (List Char)) (n p : List Char) (b : List Nat)
    (hn : n ∈ l) (hf : f n = some (p, b)) :
    1 ≤ ((l.filterMap f).map Prod.fst).count p := by
  refine List.one_le_count_iff.mpr ?_
  exact List.mem_map.mpr ⟨(p, b), List.mem_filterMap.mpr ⟨n, hn, hf⟩, rfl⟩

/-- Two distinct keys that a function sends to pairs with the same first
component put that component at least twice among the first components of
the filtered image. -/
theorem filterMap_count_two (f : List Char → Option (List Char × List Nat))
    (n1 n2 p : List Char) (b1 b2 : List Nat) (hne : n1 ≠ n2)
    (hf1 : f n1 = some (p, b1)) (hf2 : f n2 = some (p, b2)) :
    ∀ l : List (List Char), n1 ∈ l → n2 ∈ l →
      2 ≤ ((l.filterMap f).map Prod.fst).count p := by
  intro l
  induction l with
  | nil => intro h1 _; simp at h1
  | cons a t ih =>
    intro h1 h2
    rcases List.mem_cons.mp h1 with rfl | hn1t
    · have hn2t : n2 ∈ t := by
        rcases List.mem_cons.mp h2 with rfl | h
        · exact absurd rfl hne
        · exact h
      rw [List.filterMap_cons_some hf1]
      simp only [List.map_cons, List.count_cons_self]
      have := filterMap_count_one f t n2 p b2 hn2t hf2
      omega
    · rcases List.mem_cons.mp h2 with rfl | hn2t
      · rw [List.filterMap_cons_some hf2]
        simp only [List.map_cons, List.count_cons_self]
        have := filterMap_count_one f t n1 p b1 hn1t hf1
        omega
      · cases hfa : f a with
        | none =>
          rw [List.filterMap_cons_none hfa]
          exact ih hn1t hn2t
        | some q =>
          rw [List.filterMap_cons_some hfa]
          simp only [List.map_cons, List.count_cons]
          have := ih hn1t hn2t
          omega

/-- Claim C7 (counterexample): the same resource written once with forward
and once with backward slashes (the archive `c7_entries`) maps to one
destination path; the conversion succeeds and silently writes both entries
under that path instead of failing. -/
theorem collision_c7_counterexample :
    (convert_plain_to_v2 (S "t.plain.pk") c7_entries none).error = none ∧
      (convert_plain_to_v2 (S "t.plain.pk") c7_entries none).written.map Prod.fst =
        [S "00000000000000000000000000000000/rf/000/a",
         S "00000000000000000000000000000000/rf/000/a"] := by
  decide

/-- Claim C7 (amended): when a well-formed conversion completes without
error and two distinct source entry names map to the same destination
path, the conversion writes both entries under that one path (the path
occurs at least twice among the written paths) instead of failing. -/
theorem collision_c7 (input_name : List Char) (entries : List (List Char × List Nat))
    (output_path : Option (List Char)) (u : List Nat) (n1 n2 p : List Char) (b1 b2 : List Nat)
    (hsuf : (S ".plain.pk").isSuffixOf input_name = true)
    (hu : zip_read entries (S "uuid.bin") = some u) (h16 : u.length = 16)
    (hok : (convert_plain_to_v2 input_name entries output_path).error = none)
    (h1 : n1 ∈ entries.map Prod.fst) (h2 : n2 ∈ entries.map Prod.fst) (hne : n1 ≠ n2)
    (hw1 : write_of (uuidHexUpper u) entries n1 = some (p, b1))
    (hw2 : write_of (uuidHexUpper u) entries n2 = some (p, b2)) :
    2 ≤ ((convert_plain_to_v2 input_name entries output_path).written.map Prod.fst).count p := by
  rw [convert_main_eq input_name entries output_path u hsuf hu h16] at hok ⊢
  simp only at hok ⊢
  rw [process_all_ok_written _ _ _ hok]
  exact filterMap_count_two _ n1 n2 p b1 b2 hne hw1 hw2 _ h1 h2

/-- Claim C7 (witness for the amended claim). -/
theorem collision_c7_witness :
    (S ".plain.pk").isSuffixOf (S "t.plain.pk") = true ∧
    zip_read c7_entries (S "uuid.bin") = some (List.replicate 16 0) ∧
    (List.replicate 16 0 : List Nat).length = 16 ∧
    (convert_plain_to_v2 (S "t.plain.pk") c7_entries none).error = none ∧
    S "rf/000/a.bmp" ∈ c7_entries.map Prod.fst ∧
    S "rf\\000\\a.bmp" ∈ c7_entries.map Prod.fst ∧
    S "rf/000/a.bmp" ≠ S "rf\\000\\a.bmp" ∧
    write_of (uuidHexUpper (List.replicate 16 0)) c7_entries (S "rf/000/a.bmp") =
      some (S "00000000000000000000000000000000/rf/000/a",
        (encrypt_first_512_bytes [1, 2, 3, 4, 5, 6, 7, 8] lunii_generic_key).getD []) ∧
    write_of (uuidHexUpper (List.replicate 16 0)) c7_entries (S "rf\\000\\a.bmp") =
      some (S "00000000000000000000000000000000/rf/000/a",
        (encrypt_first_512_bytes [5, 6, 7, 8, 9, 10, 11, 12] lunii_generic_key).getD []) ∧
    2 ≤ ((convert_plain_to_v2 (S "t.plain.pk") c7_entries none).written.map Prod.fst).count
      (S "00000000000000000000000000000000/rf/000/a") :=
  ⟨by decide, by decide, by decide, by decide, by decide, by decide, by decide, by decide,
    by decide,
    collision_c7 (S "t.plain.pk") c7_entries none (List.replicate 16 0)
      (S "rf/000/a.bmp") (S "rf\\000\\a.bmp")
      (S "00000000000000000000000000000000/rf/000/a")
      ((encrypt_first_512_bytes [1, 2, 3, 4, 5, 6, 7, 8] lunii_generic_key).getD [])
      ((encrypt_first_512_bytes [5, 6, 7, 8, 9, 10, 11, 12] lunii_generic_key).getD [])
      (by decide) (by decide) (by decide) (by decide) (by decide) (by decide) (by decide)
      (by decide) (by decide)⟩

